import Mathlib

/-!
Shallow embedding of the interactive prompt/table engines of
`terminal-quizzer-node` (src/questioner.js and src/UI/InteractiveTable.js),
together with theorems settling the specification claims about them.

Conventions of the embedding:
* JavaScript runtime values that the prompts store in `value`/`checked`
  fields are modelled by the inductive `JSVal` (undefined, null, booleans,
  integer numbers, strings), with JS truthiness, `||` and `??` made explicit.
* Mutable per-prompt state (the `selectedIndex` counters, the multiselect
  choice array, the table fields) is passed explicitly; each keypress
  handler becomes a step function on that state.
* JS array `sort` (stable, comparator-driven) is modelled by
  `List.mergeSort`, which is stable and places `a` before `b`
  exactly when the embedded comparator is `≤ 0`, matching the JS contract.
* Machine integers are modelled by `Int`/`Nat`; the indices involved stay
  far below any overflow boundary, mirroring JS number semantics on
  small integers exactly.
-/

namespace TQ

/-- JavaScript values as they occur in choice `value`/`checked` fields:
undefined, null, booleans, (integer) numbers and strings. -/
inductive JSVal where
  | undef : JSVal
  | null : JSVal
  | bool : Bool → JSVal
  | num : Int → JSVal
  | str : String → JSVal
deriving DecidableEq, Repr

/-- JS truthiness of a `JSVal` (`undefined`, `null`, `false`, `0` and `""`
are falsy). -/
def truthy : JSVal → Bool
  | .undef => false
  | .null => false
  | .bool b => b
  | .num n => n != 0
  | .str s => s != ""

/-- JS `a || b`: `a` when truthy, else `b`. -/
def jsOr (a b : JSVal) : JSVal :=
  if truthy a then a else b

/-- JS `a ?? b`: `a` unless it is `null` or `undefined`. -/
def jsNullish (a b : JSVal) : JSVal :=
  match a with
  | .undef => b
  | .null => b
  | _ => a

/-- One selectable option: `{ name, value }`; an absent `value` field is
modelled as `JSVal.undef`. -/
structure Choice where
  name : String
  value : JSVal
deriving DecidableEq, Repr

/-- Cursor-movement keys handled by the select-family keypress handlers. -/
inductive NavKey where
  | up : NavKey
  | down : NavKey
deriving DecidableEq, Repr

/-- `select` keypress handler, up/down cases (questioner.js:805-812):
`up`: `selectedIndex > 0 ? selectedIndex - 1 : choices.length - 1`;
`down`: `selectedIndex < choices.length - 1 ? selectedIndex + 1 : 0`.
`n` is `choices.length`. -/
def selectNavStep (n : Nat) (i : Int) : NavKey → Int
  | .up => if i > 0 then i - 1 else (n : Int) - 1
  | .down => if i < (n : Int) - 1 then i + 1 else 0

/-- `multiselect` keypress handler, up/down cases (questioner.js:1008-1014);
textually identical to the `select` cases. -/
def multiselectNavStep (n : Nat) (i : Int) : NavKey → Int
  | .up => if i > 0 then i - 1 else (n : Int) - 1
  | .down => if i < (n : Int) - 1 then i + 1 else 0

/-- `searchableSelect` keypress handler, up/down cases
(questioner.js:899-905), over the current filtered view of length `n`:
`up`: `selectedIndex > 0 ? selectedIndex - 1 : Math.max(0, filtered.length - 1)`;
`down`: `selectedIndex < Math.max(0, filtered.length - 1) ? selectedIndex + 1 : 0`. -/
def searchableNavStep (n : Nat) (i : Int) : NavKey → Int
  | .up => if i > 0 then i - 1 else max 0 ((n : Int) - 1)
  | .down => if i < max 0 ((n : Int) - 1) then i + 1 else 0

/-- Run a navigation handler from the initial `selectedIndex = 0`
(questioner.js:757) over a sequence of up/down keypresses. -/
def runNav (step : Nat → Int → NavKey → Int) (n : Nat) (ks : List NavKey) : Int :=
  ks.foldl (step n) 0

/-- `select` return case (questioner.js:819):
`resolve(choices[selectedIndex].value || choices[selectedIndex].name)`. -/
def selectReturnValue (c : Choice) : JSVal :=
  jsOr c.value (.str c.name)

/-- `searchableSelect` resolution of one choice (questioner.js:925):
`choice.value ?? choice.name`. -/
def searchableChoiceValue (c : Choice) : JSVal :=
  jsNullish c.value (.str c.name)

/-- Whether `needle` occurs at the head of the character list
(the anchored part of JS `String.prototype.includes`). -/
def leadsWith : List Char → List Char → Bool
  | [], _ => true
  | _ :: _, [] => false
  | a :: as, b :: bs => a == b && leadsWith as bs

/-- JS `hay.includes(needle)` on character lists: `needle` occurs
contiguously somewhere in `hay` (the empty needle always occurs). -/
def hasSub : List Char → List Char → Bool
  | [], needle => leadsWith needle []
  | h :: t, needle => leadsWith needle (h :: t) || hasSub t needle

/-- JS `s.toLowerCase()` as a character list. -/
def lowerStr (s : String) : List Char :=
  s.toList.map Char.toLower

/-- Case-insensitive match of the query against one choice name
(questioner.js:852: `String(c.name).toLowerCase().includes(q)`). -/
def nameMatches (q : String) (c : Choice) : Bool :=
  hasSub (lowerStr c.name) (lowerStr q)

/-- `searchableSelect`'s `getFiltered` (questioner.js:849-853):
an empty (falsy) query returns all choices, otherwise the
case-insensitive substring filter is applied. -/
def getFiltered (choices : List Choice) (q : String) : List Choice :=
  if q = "" then choices else choices.filter (nameMatches q)

/-- `searchableSelect` return case (questioner.js:919-925): index the
filtered view at `selectedIndex` (out of range gives JS `undefined`,
modelled by `none`) and resolve `choice ? (choice.value ?? choice.name) : null`. -/
def searchableReturn (choices : List Choice) (q : String) (i : Nat) : JSVal :=
  match (getFiltered choices q).get? i with
  | some c => searchableChoiceValue c
  | none => JSVal.null

/-! Multiselect engine (questioner.js:950-1056). -/

/-- A choice object as handled by `multiselect`: the caller may supply a
`checked` field holding any JS value (absent = `undef`); the engine's
copies and toggles keep the field in the same slot. -/
structure MChoice where
  name : String
  value : JSVal
  checked : JSVal
deriving DecidableEq, Repr

/-- Multiselect configuration: `min: options.min || 0`, `max: options.max`
(questioner.js:955-956); an absent `max` is `none`. -/
structure MSConfig where
  min : Nat
  max : Option Nat
deriving DecidableEq, Repr

/-- Mutable state of one multiselect invocation: the cursor and the
engine's private copy of the choices. -/
structure MSState where
  selectedIndex : Int
  choices : List MChoice
deriving DecidableEq, Repr

/-- Keys dispatched by the multiselect keypress handler. -/
inductive MSKey where
  | up : MSKey
  | down : MSKey
  | space : MSKey
  | ret : MSKey
  | escape : MSKey
deriving DecidableEq, Repr

/-- The checked choices, `choices.filter(c => c.checked)` (questioner.js:1021). -/
def msChecked (st : MSState) : List MChoice :=
  st.choices.filter (fun c => truthy c.checked)

/-- JS truthiness of the configured `max` (`config.max &&`,
questioner.js:1030): absent or `0` is falsy. -/
def msMaxTruthy (cfg : MSConfig) : Bool :=
  match cfg.max with
  | none => false
  | some m => m != 0

/-- One step of the multiselect keypress handler (questioner.js:1006-1052).
Returns the successor state and `some result` exactly when the handler
resolves the promise (`none` on the transient min/max error paths, which
redraw the unchanged state and keep listening). A `space` with the cursor
out of range leaves the list unchanged (`List.modify` is the identity
there). -/
def msStep (cfg : MSConfig) (st : MSState) : MSKey → MSState × Option (List JSVal)
  | .up => ({ st with selectedIndex := multiselectNavStep st.choices.length st.selectedIndex .up }, none)
  | .down => ({ st with selectedIndex := multiselectNavStep st.choices.length st.selectedIndex .down }, none)
  | .space =>
      ({ st with choices := st.choices.modify (fun c => { c with checked := .bool (!truthy c.checked) }) st.selectedIndex.toNat },
       none)
  | .ret =>
      let selected := msChecked st
      if selected.length < cfg.min then
        (st, none)
      else if msMaxTruthy cfg && decide ((cfg.max.getD 0 : Nat) < selected.length) then
        (st, none)
      else
        (st, some (selected.map fun c => jsOr c.value (.str c.name)))
  | .escape => (st, some [])

/-! Heap model of multiselect's choice copying (claim C10). JS objects are
modelled as heap cells addressed by allocation index; the caller's choices
array is a list of addresses into the heap, and `multiselect` allocates
fresh cells for its private copies. -/

/-- A heap of choice objects; the address of a cell is its index. -/
abbrev Heap := List MChoice

/-- The per-element copy `{...choice, checked: choice.checked || false}`
(questioner.js:963-966): a fresh object with the same fields, the
`checked` slot passed through `|| false`. -/
def copyChoice (c : MChoice) : MChoice :=
  { name := c.name, value := c.value, checked := jsOr c.checked (.bool false) }

/-- Entry to `multiselect`: allocate the private copies of the caller's
choices at fresh addresses at the end of the heap, returning the extended
heap and the engine's address list. -/
def msAlloc (h : Heap) (callerAddrs : List Nat) : Heap × List Nat :=
  (h ++ callerAddrs.map (fun a => copyChoice ((h.get? a).getD ⟨"", .undef, .undef⟩)),
   List.range' h.length callerAddrs.length)

/-- Engine state over the heap: the cursor and the addresses of the
engine's private copies. -/
structure MSHeapState where
  selectedIndex : Int
  addrs : List Nat
deriving DecidableEq, Repr

/-- One multiselect keypress over the heap model: only `space` writes to
the heap, toggling `checked` on the engine's own copy at the cursor
(questioner.js:1016-1018, `choices[selectedIndex].checked = !...`). -/
def msHeapStep (h : Heap) (st : MSHeapState) : MSKey → Heap × MSHeapState
  | .up => (h, { st with selectedIndex := multiselectNavStep st.addrs.length st.selectedIndex .up })
  | .down => (h, { st with selectedIndex := multiselectNavStep st.addrs.length st.selectedIndex .down })
  | .space =>
      match st.addrs.get? st.selectedIndex.toNat with
      | some a => (h.modify (fun c => { c with checked := .bool (!truthy c.checked) }) a, st)
      | none => (h, st)
  | .ret => (h, st)
  | .escape => (h, st)

/-- Run a whole multiselect event sequence over the heap model, starting
from the freshly allocated engine copies. -/
def msHeapRun (h : Heap) (callerAddrs : List Nat) (ks : List MSKey) : Heap × MSHeapState :=
  let (h1, eAddrs) := msAlloc h callerAddrs
  ks.foldl (fun p k => msHeapStep p.1 p.2 k) (h1, ⟨0, eAddrs⟩)

/-! Text wrapping (InteractiveTable.js:157-180). Strings are handled as
character lists so that every step is structurally recursive. -/

/-- JS `text.split(' ')`: split on every single space, keeping empty
fragments (`''.split(' ')` is `['']`). -/
def splitOnSpace (cs : List Char) : List (List Char) :=
  cs.foldr
    (fun ch acc =>
      if ch = ' ' then [] :: acc
      else
        match acc with
        | w :: rest => (ch :: w) :: rest
        | [] => [[ch]])
    [[]]

/-- JS `s.trim()` restricted to the spaces `wrapText` introduces: drop
spaces from both ends. -/
def trimSpaces (cs : List Char) : List Char :=
  ((cs.dropWhile (· = ' ')).reverse.dropWhile (· = ' ')).reverse

/-- One iteration of `wrapText`'s word loop (InteractiveTable.js:162-173),
on the state `(lines, currentLine)`:
if `currentLine.length + word.length + 1 > width` then either truncate the
word to `width - 1` characters plus an ellipsis (when `currentLine` is
empty) or flush the trimmed `currentLine` and restart it with the word;
otherwise append the word and a space to `currentLine`. -/
def wrapStep (width : Nat) (st : List (List Char) × List Char) (word : List Char) :
    List (List Char) × List Char :=
  let lines := st.1
  let currentLine := st.2
  if currentLine.length + word.length + 1 > width then
    if currentLine.length = 0 then
      (lines ++ [word.take (width - 1) ++ ['…']], currentLine)
    else
      (lines ++ [trimSpaces currentLine], word ++ [' '])
  else
    (lines, currentLine ++ word ++ [' '])

/-- `InteractiveTable.wrapText(text, width)` (InteractiveTable.js:157-180):
split on single spaces, fold the word loop, then flush a non-blank
trailing line. -/
def wrapText (text : String) (width : Nat) : List String :=
  let st := (splitOnSpace text.toList).foldl (wrapStep width) ([], [])
  let lines := if (trimSpaces st.2).length > 0 then st.1 ++ [trimSpaces st.2] else st.1
  lines.map List.asString

/-- The wrap call of `renderDataRow` (InteractiveTable.js:316):
`wrapText(String(cellValue), columnWidths[colIndex] - 2)` — the effective
wrap width is the resolved column width minus two. -/
def cellWrapLines (columnWidth : Nat) (cellValue : String) : List String :=
  wrapText cellValue (columnWidth - 2)

/-! InteractiveTable data model (InteractiveTable.js). -/

/-- A table row: a record from column names to (integer) cell values,
modelled as an association list; a missing key is JS `undefined`. -/
abbrev Row := List (String × Int)

/-- JS `row[columnName]`: the raw cell value, `none` when the key is absent. -/
def cell (r : Row) (c : String) : Option Int :=
  (r.find? (fun p => p.1 == c)).map (·.2)

/-- JS `String(row[columnName] || '')` (InteractiveTable.js:417): a missing
or zero (falsy) cell stringifies to the empty string. -/
def jsCellStr (r : Row) (c : String) : String :=
  match cell r c with
  | some v => if v = 0 then "" else toString v
  | none => ""

/-- Sort direction, `'asc' | 'desc'`. -/
inductive SortDir where
  | asc : SortDir
  | desc : SortDir
deriving DecidableEq, Repr

/-- The comparator body of `getProcessedRows` (InteractiveTable.js:425-434):
`comparison = 0; if (aValue < bValue) comparison = -1;
if (aValue > bValue) comparison = 1`. Comparisons against JS `undefined`
are false, leaving `0`. -/
def cmpCells (a b : Option Int) : Int :=
  match a, b with
  | some x, some y => if x < y then -1 else if x > y then 1 else 0
  | _, _ => 0

/-- The full comparator: `sortDirection === 'desc' ? -comparison : comparison`
(InteractiveTable.js:433) over the raw cells of the sort column. -/
def rowComparison (col : String) (dir : SortDir) (a b : Row) : Int :=
  let comparison := cmpCells (cell a col) (cell b col)
  match dir with
  | .asc => comparison
  | .desc => -comparison

/-- The JS stable-sort ordering induced by the comparator: `a` stays
before `b` exactly when the comparator is `≤ 0`. -/
def rowLE (col : String) (dir : SortDir) (a b : Row) : Bool :=
  rowComparison col dir a b ≤ 0

/-- One column filter (InteractiveTable.js:416-418): case-insensitive
substring match of the filter value against the stringified cell. -/
def filterPred (col fv : String) (r : Row) : Bool :=
  hasSub (lowerStr (jsCellStr r col)) (lowerStr fv)

/-- Apply the configured filters in key order (InteractiveTable.js:413-421);
a falsy (empty) filter value is skipped. -/
def applyFilters : List (String × String) → List Row → List Row
  | [], rows => rows
  | (c, v) :: rest, rows =>
      applyFilters rest (if v = "" then rows else rows.filter (filterPred c v))

/-- Apply the sort of `getProcessedRows` (InteractiveTable.js:424-435):
skipped when `sortColumn` is falsy (absent or empty), otherwise the stable
comparator sort. -/
def applySort (sortColumn : Option String) (dir : SortDir) (rows : List Row) : List Row :=
  match sortColumn with
  | none => rows
  | some col => if col = "" then rows else rows.mergeSort (rowLE col dir)

/-- The mutable fields of an `InteractiveTable` instance that the
processed-row pipeline, pagination and the interactive menu read
(InteractiveTable.js:19-43). -/
structure Table where
  rows : List Row
  filters : List (String × String)
  sortColumn : Option String
  sortDirection : SortDir
  currentPage : Nat
  pageSize : Nat
  showPagination : Bool
  selectedRow : Nat
deriving DecidableEq, Repr

/-- `getProcessedRows` (InteractiveTable.js:409-438): copy the rows, apply
the filters, then the sort. -/
def getProcessedRows (t : Table) : List Row :=
  applySort t.sortColumn t.sortDirection (applyFilters t.filters t.rows)

/-- The visible page as computed by `handleKeyPress` and `render`
(InteractiveTable.js:118-123, 206-210): with pagination on, the slice
`[currentPage*pageSize, currentPage*pageSize + pageSize)` of the processed
rows, else all of them. -/
def visibleRows (t : Table) : List Row :=
  if t.showPagination then
    ((getProcessedRows t).drop (t.currentPage * t.pageSize)).take t.pageSize
  else
    getProcessedRows t

/-- The index that the `return` case of `handleKeyPress` resolves with
(InteractiveTable.js:136-139):
`selectedRow + (showPagination ? currentPage * pageSize : 0)`. -/
def resolveIndex (t : Table) : Nat :=
  t.selectedRow + (if t.showPagination then t.currentPage * t.pageSize else 0)

/-- `Math.ceil(processedRows.length / pageSize)` (InteractiveTable.js:443,
497, 512) for a positive `pageSize`. -/
def totalPages (t : Table) : Nat :=
  ((getProcessedRows t).length + t.pageSize - 1) / t.pageSize

/-- `goToPage(page)` (InteractiveTable.js:511-517): the page is applied only
when `0 ≤ page < totalPages`; an out-of-range request leaves the table
unchanged. -/
def goToPage (t : Table) (page : Nat) : Table :=
  if page < totalPages t then { t with currentPage := page } else t

/-- `nextPage()` (InteractiveTable.js:496-502): increment only while
`currentPage < totalPages - 1` (JS arithmetic, so the guard is
`currentPage + 1 < totalPages`). -/
def nextPage (t : Table) : Table :=
  if t.currentPage + 1 < totalPages t then { t with currentPage := t.currentPage + 1 } else t

/-- `previousPage()` (InteractiveTable.js:504-509): decrement only while
`currentPage > 0`. -/
def previousPage (t : Table) : Table :=
  if t.currentPage > 0 then { t with currentPage := t.currentPage - 1 } else t

/-- Rows annotated with their raw sort-column key; used to reason about
the comparator sort through `List.mergeSort`'s stability lemmas. -/
def toKeyed (col : String) (l : List Row) : List (Row × Int) :=
  l.map (fun r => (r, (cell r col).getD 0))

/-- The comparator ordering on key-annotated rows: `asc` compares the
keys, `desc` compares them the other way around (the negated-sign
comparator). -/
def pairLE (dir : SortDir) (a b : Row × Int) : Bool :=
  match dir with
  | .asc => decide (a.2 ≤ b.2)
  | .desc => decide (b.2 ≤ a.2)

/-! Concrete instances used in counterexamples and witnesses. -/

/-- Twenty-five rows `{x: 0} … {x: 24}`. -/
def t25Rows : List Row :=
  (List.range 25).map (fun i => [("x", (i : Int))])

/-- A paginated table of 25 rows with `pageSize: 10` and no filter/sort,
as in the pagination scenario of the spec. -/
def T25 : Table :=
  { rows := t25Rows, filters := [], sortColumn := none, sortDirection := .asc,
    currentPage := 0, pageSize := 10, showPagination := true, selectedRow := 0 }

/-- A three-row table sorted ascending on `x`, with a tie on `x`. -/
def TS : Table :=
  { rows := [[("x", (2 : Int))], [("x", (1 : Int))], [("y", (9 : Int)), ("x", (1 : Int))]],
    filters := [], sortColumn := some "x", sortDirection := .asc,
    currentPage := 0, pageSize := 10, showPagination := false, selectedRow := 0 }

/-- A two-row table with a descending sort on column `x` active and no
pagination; the processed order is the reverse of the stored order. -/
def T2 : Table :=
  { rows := [[("x", (1 : Int))], [("x", (2 : Int))]], filters := [],
    sortColumn := some "x", sortDirection := .desc,
    currentPage := 0, pageSize := 10, showPagination := false, selectedRow := 0 }

/-! Theorems. Helper lemmas first, then one theorem per claim (with
counterexamples and witnesses where required). -/

/-- Evaluation of `List.mergeSort` on a two-element list. -/
theorem mergeSort_two {α : Type} (le : α → α → Bool) (a b : α) :
    [a, b].mergeSort le = if le a b then [a, b] else [b, a] := by
  rw [List.mergeSort]
  simp [List.splitInTwo, List.splitAt_eq, List.merge]

/-- Each of the three navigation step functions keeps the cursor inside
`[0, n-1]` when the view is non-empty. -/
theorem navStep_preserves_range (n : Nat) (hn : 1 ≤ n)
    (step : Nat → Int → NavKey → Int)
    (hstep : step = selectNavStep ∨ step = multiselectNavStep ∨ step = searchableNavStep)
    (i : Int) (k : NavKey) (h0 : 0 ≤ i) (h1 : i ≤ (n : Int) - 1) :
    0 ≤ step n i k ∧ step n i k ≤ (n : Int) - 1 := by
  have hn' : (1 : Int) ≤ (n : Int) := by exact_mod_cast hn
  have hmax : max 0 ((n : Int) - 1) = (n : Int) - 1 := max_eq_right (by omega)
  rcases hstep with h | h | h <;> subst h <;> cases k <;>
    simp only [selectNavStep, multiselectNavStep, searchableNavStep, hmax] <;>
    split <;> omega

/-- C1 (amended: the choice sequence must be non-empty). For every
non-empty choice sequence of length `n` handed to `select`,
`searchableSelect` or `multiselect`, after any finite sequence of up/down
keypresses (including the empty one) the engine's `selectedIndex` lies in
`[0, n-1]`. -/
theorem nav_selectedIndex_in_range (n : Nat) (hn : 1 ≤ n)
    (step : Nat → Int → NavKey → Int)
    (hstep : step = selectNavStep ∨ step = multiselectNavStep ∨ step = searchableNavStep)
    (ks : List NavKey) :
    0 ≤ runNav step n ks ∧ runNav step n ks ≤ (n : Int) - 1 := by
  have key : ∀ (ks : List NavKey) (i : Int), 0 ≤ i → i ≤ (n : Int) - 1 →
      0 ≤ ks.foldl (step n) i ∧ ks.foldl (step n) i ≤ (n : Int) - 1 := by
    intro ks
    induction ks with
    | nil => intro i h0 h1; exact ⟨h0, h1⟩
    | cons k ks ih =>
        intro i h0 h1
        have h2 := navStep_preserves_range n hn step hstep i k h0 h1
        exact ih (step n i k) h2.1 h2.2
  have hn' : (1 : Int) ≤ (n : Int) := by exact_mod_cast hn
  exact key ks 0 le_rfl (by omega)

/-- Witness for `nav_selectedIndex_in_range` at `n = 3` with three keypresses. -/
theorem nav_selectedIndex_in_range_witness :
    (1 : Nat) ≤ 3 ∧
      (0 ≤ runNav searchableNavStep 3 [.up, .down, .down] ∧
       runNav searchableNavStep 3 [.up, .down, .down] ≤ (3 : Int) - 1) :=
  ⟨by decide,
   nav_selectedIndex_in_range 3 (by decide) searchableNavStep (Or.inr (Or.inr rfl))
     [.up, .down, .down]⟩

/-- C1 counterexample: with the empty choice sequence (`N = 0`) the range
`[0, N-1]` is empty, so the initial `selectedIndex = 0` already violates
it, and one `up` keypress in `select` drives `selectedIndex` to `-1`. -/
theorem nav_selectedIndex_empty_counterexample :
    runNav selectNavStep 0 [] = 0
    ∧ ¬(0 ≤ (0 : Int) ∧ (0 : Int) ≤ (0 : Int) - 1)
    ∧ runNav selectNavStep 0 [NavKey.up] = -1 := by decide

/-- C3 counterexample: on a filtered view of 3 choices with
`selectedIndex = 0`, an `up` keypress in `searchableSelect` moves the
cursor to `2` (the last index), not `0` — it wraps, it does not clamp. -/
theorem searchable_clamp_counterexample :
    searchableNavStep 3 0 NavKey.up = 2 ∧ ((2 : Int) ≠ 0) := by decide

/-- C3 (amended): on every non-empty view `searchableSelect`'s up/down
handler computes exactly the same cursor as plain `select`'s; both wrap
cyclically (up at `0` goes to `n-1`, down at `n-1` goes to `0`). The two
differ only on the empty view, where `Math.max(0, …)` keeps the
searchable cursor at `0`. -/
theorem searchable_wraps_like_select (n : Nat) (hn : 1 ≤ n) :
    (∀ (i : Int) (k : NavKey), searchableNavStep n i k = selectNavStep n i k)
    ∧ selectNavStep n 0 .up = (n : Int) - 1
    ∧ selectNavStep n ((n : Int) - 1) .down = 0
    ∧ searchableNavStep n 0 .up = (n : Int) - 1
    ∧ searchableNavStep n ((n : Int) - 1) .down = 0 := by
  have hn' : (1 : Int) ≤ (n : Int) := by exact_mod_cast hn
  have hmax : max 0 ((n : Int) - 1) = (n : Int) - 1 := max_eq_right (by omega)
  refine ⟨?_, ?_, ?_, ?_, ?_⟩
  · intro i k; cases k <;> simp only [searchableNavStep, selectNavStep, hmax]
  · simp [selectNavStep]
  · simp [selectNavStep]
  · simp [searchableNavStep, hmax]
  · simp [searchableNavStep, hmax]

/-- Witness for `searchable_wraps_like_select` at `n = 3`. -/
theorem searchable_wraps_like_select_witness :
    (1 : Nat) ≤ 3 ∧ searchableNavStep 3 0 NavKey.up = (3 : Int) - 1 :=
  ⟨by decide, (searchable_wraps_like_select 3 (by decide)).2.2.2.1⟩

/-- C7 counterexample: a present-but-falsy `value` (the empty string) is
not resolved by `select`; the `||` fallback resolves the name instead. -/
theorem select_falsy_value_counterexample :
    selectReturnValue ⟨"A", .str ""⟩ = .str "A" ∧ JSVal.str "A" ≠ JSVal.str "" := by decide

/-- C7 (amended): `select` resolves the choice's `value` exactly when it
is truthy and falls back to the name on every falsy `value` (including
present `0`, `""`, `false`); `searchableSelect` resolves the `value`
whenever it is neither `undefined` nor `null` (so present-but-falsy
values are honoured there) and falls back to the name otherwise. -/
theorem return_value_fallback (c : Choice) :
    (truthy c.value = true → selectReturnValue c = c.value)
    ∧ (truthy c.value = false → selectReturnValue c = .str c.name)
    ∧ (c.value ≠ .undef → c.value ≠ .null → searchableChoiceValue c = c.value)
    ∧ (c.value = .undef ∨ c.value = .null → searchableChoiceValue c = .str c.name) := by
  refine ⟨?_, ?_, ?_, ?_⟩
  · intro h; simp [selectReturnValue, jsOr, h]
  · intro h; simp [selectReturnValue, jsOr, h]
  · intro h1 h2
    cases h : c.value <;> simp_all [searchableChoiceValue, jsNullish]
  · rintro (h | h) <;> simp [searchableChoiceValue, h, jsNullish]

/-- Witness for `return_value_fallback` at the falsy number `0`. -/
theorem return_value_fallback_witness :
    (truthy (JSVal.num 0) = false ∧ selectReturnValue ⟨"A", .num 0⟩ = .str "A")
    ∧ (JSVal.num 0 ≠ .undef ∧ JSVal.num 0 ≠ .null ∧
       searchableChoiceValue ⟨"A", .num 0⟩ = .num 0) :=
  ⟨⟨by decide, (return_value_fallback ⟨"A", .num 0⟩).2.1 (by decide)⟩,
   ⟨by decide, by decide,
    (return_value_fallback ⟨"A", .num 0⟩).2.2.1 (by decide) (by decide)⟩⟩

/-- The empty needle is a substring of every haystack (JS
`s.includes('')` is true). -/
theorem hasSub_nil (hay : List Char) : hasSub hay [] = true := by
  cases hay <;> simp [hasSub, leadsWith]

/-- C9 (confirmed): if the query matches no choice name, the filtered view
is empty and a subsequent `return` resolves `null` (JS indexes the empty
array as `undefined`, so nothing crashes). -/
theorem searchable_empty_filter_safe (choices : List Choice) (q : String) (i : Nat)
    (h : ∀ c ∈ choices, nameMatches q c = false) :
    getFiltered choices q = [] ∧ searchableReturn choices q i = JSVal.null := by
  have hf : getFiltered choices q = [] := by
    unfold getFiltered
    split
    · rename_i hq
      subst hq
      cases choices with
      | nil => rfl
      | cons c cs =>
          exfalso
          have hc := h c (by simp)
          have hl : lowerStr "" = [] := rfl
          rw [nameMatches, hl, hasSub_nil] at hc
          cases hc
    · simp only [List.filter_eq_nil_iff]
      intro c hc
      simp [h c hc]
  refine ⟨hf, ?_⟩
  unfold searchableReturn
  rw [hf]
  simp

/-- Witness for `searchable_empty_filter_safe`: one choice, a query that
matches nothing. -/
theorem searchable_empty_filter_safe_witness :
    (∀ c ∈ ([⟨"Apple", .undef⟩] : List Choice), nameMatches "zz" c = false)
    ∧ getFiltered [⟨"Apple", .undef⟩] "zz" = []
    ∧ searchableReturn [⟨"Apple", .undef⟩] "zz" 0 = JSVal.null :=
  ⟨by decide,
   (searchable_empty_filter_safe [⟨"Apple", .undef⟩] "zz" 0 (by decide)).1,
   (searchable_empty_filter_safe [⟨"Apple", .undef⟩] "zz" 0 (by decide)).2⟩

/-- C8 counterexample: through `renderDataRow` a width-3 column wraps at
`3 - 2 = 1`, so the cell `"hello"` renders as the single line `"…"`, not
`"he…"`. -/
theorem cell_wrap_counterexample :
    cellWrapLines 3 "hello" = ["…"] ∧ (["…"] : List String) ≠ ["he…"] := by decide

/-- C8 (amended): `renderDataRow` wraps cell text at the resolved column
width minus two, so the width-3 column turns `"hello"` into the single
line `"…"`; `wrapText` itself at width 3 yields the single line `"he…"`
(one line, not two). Ellipsis truncation hits any word that does not fit
while the current line is empty — not only a word that alone exceeds the
width (at width 5, `"hello world"` truncates both words) — while words
that fit are wrapped on word boundaries untruncated. -/
theorem cell_wrap_amended :
    cellWrapLines 3 "hello" = ["…"]
    ∧ wrapText "hello" 3 = ["he…"]
    ∧ (wrapText "hello" 3).length = 1
    ∧ wrapText "hello world" 8 = ["hello", "world"]
    ∧ wrapText "verylongword a" 5 = ["very…", "a"]
    ∧ wrapText "hello world" 5 = ["hell…", "worl…"] := by decide

/-- C4 counterexample: on the 25-row, pageSize-10 table, `goToPage(5)` is
ignored (the current page stays `0` and the first ten rows stay visible),
it does not clamp to the last valid page `2`. -/
theorem goToPage_no_clamp_counterexample :
    totalPages T25 = 3
    ∧ (goToPage T25 5).currentPage = 0
    ∧ visibleRows (goToPage T25 5) = t25Rows.take 10
    ∧ visibleRows { T25 with currentPage := 2 } = t25Rows.drop 20
    ∧ visibleRows (goToPage T25 5) ≠ visibleRows { T25 with currentPage := 2 } := by decide

/-- C4 (amended): `goToPage` applies an in-range page and ignores a
request at or past the page count (leaving `currentPage`, and hence the
visible rows, unchanged — no clamping, no wrapping); `nextPage` and
`previousPage` clamp at the two boundaries. -/
theorem page_navigation_spec (t : Table) (p : Nat) :
    ((goToPage t p).currentPage = if p < totalPages t then p else t.currentPage)
    ∧ ((nextPage t).currentPage =
        if t.currentPage + 1 < totalPages t then t.currentPage + 1 else t.currentPage)
    ∧ ((previousPage t).currentPage = if 0 < t.currentPage then t.currentPage - 1 else 0)
    ∧ (visibleRows (goToPage t p) =
        if p < totalPages t then visibleRows { t with currentPage := p } else visibleRows t) := by
  refine ⟨?_, ?_, ?_, ?_⟩
  · by_cases hp : p < totalPages t <;> simp [goToPage, hp]
  · by_cases hp : t.currentPage + 1 < totalPages t <;> simp [nextPage, hp]
  · by_cases hp : 0 < t.currentPage
    · simp [previousPage, hp]
    · simp only [previousPage, hp, if_neg, if_false]
      omega
  · by_cases hp : p < totalPages t <;> simp [goToPage, hp]

/-- C5 counterexample: with a configured `max` of `0`, a `return` with one
checked choice (count `1 > max`) settles the promise anyway, because the
guard `config.max &&` treats the bound `0` as falsy and skips the check. -/
theorem multiselect_max_zero_counterexample :
    (msStep ⟨0, some 0⟩ ⟨0, [⟨"A", .undef, .bool true⟩]⟩ .ret).2 = some [.str "A"]
    ∧ (msChecked ⟨0, [⟨"A", .undef, .bool true⟩]⟩).length = 1
    ∧ (0 : Nat) < 1 := by decide

/-- C5 (amended): a `return` while the checked count is below `min`, or
above a configured non-zero `max`, never settles the promise: the handler
returns with the selection state unchanged and no resolution, so the
engine redraws and keeps accepting keypresses. (With `max = 0` the guard
`config.max &&` is falsy and the check is skipped.) -/
theorem multiselect_return_no_settle (cfg : MSConfig) (st : MSState)
    (h : (msChecked st).length < cfg.min
      ∨ (∃ m, cfg.max = some m ∧ m ≠ 0 ∧ m < (msChecked st).length)) :
    msStep cfg st .ret = (st, none) := by
  rw [msStep]
  rcases h with h | ⟨m, hm, hm0, hlt⟩
  · simp [h]
  · by_cases hmin : (msChecked st).length < cfg.min
    · simp [hmin]
    · have : msMaxTruthy cfg = true := by simp [msMaxTruthy, hm, hm0]
      simp [hmin, this, hm]
      omega

/-- Witness for `multiselect_return_no_settle`: `min = 2` with one checked
choice. -/
theorem multiselect_return_no_settle_witness :
    ((msChecked ⟨0, [⟨"A", .undef, .bool true⟩]⟩).length < 2
      ∨ (∃ m, (some 5 : Option Nat) = some m ∧ m ≠ 0
           ∧ m < (msChecked ⟨0, [⟨"A", .undef, .bool true⟩]⟩).length))
    ∧ msStep ⟨2, some 5⟩ ⟨0, [⟨"A", .undef, .bool true⟩]⟩ .ret
        = (⟨0, [⟨"A", .undef, .bool true⟩]⟩, none) :=
  ⟨Or.inl (by decide),
   multiselect_return_no_settle ⟨2, some 5⟩ ⟨0, [⟨"A", .undef, .bool true⟩]⟩
     (Or.inl (by decide))⟩

/-- C2 counterexample: with a descending sort active on the two-row table
`T2`, the highlighted visible row is `{x: 2}` (original index `1`), but
`return` resolves index `0`, which names `{x: 1}` in the original
unfiltered, unsorted rows list. -/
theorem table_return_counterexample :
    resolveIndex T2 = 0
    ∧ (visibleRows T2).get? T2.selectedRow = some [("x", (2 : Int))]
    ∧ T2.rows.get? (resolveIndex T2) = some [("x", (1 : Int))]
    ∧ ([("x", (2 : Int))] : Row) ≠ [("x", (1 : Int))] := by
  have hp : getProcessedRows T2 = [[("x", (2 : Int))], [("x", (1 : Int))]] := by
    show applySort (some "x") .desc (applyFilters [] T2.rows) = _
    rw [applyFilters, applySort]
    simp only [if_neg (by decide : ¬("x" : String) = "")]
    show List.mergeSort [[("x", (1 : Int))], [("x", (2 : Int))]] (rowLE "x" .desc) = _
    rw [mergeSort_two]
    rw [if_neg (by decide)]
  refine ⟨by decide, ?_, by decide, by decide⟩
  show (visibleRows T2).get? 0 = _
  unfold visibleRows
  rw [if_neg (by decide : ¬T2.showPagination = true), hp]
  rfl

/-- C2 (amended): `return` resolves with the page-absolute index into the
processed (filtered and sorted) row list — the index of the highlighted
visible row there — which coincides with an index into the original rows
list only when no filter and no sort column are active. -/
theorem table_return_resolves_processed_index (t : Table)
    (hs : t.selectedRow < (visibleRows t).length) :
    (getProcessedRows t).get? (resolveIndex t) = (visibleRows t).get? t.selectedRow
    ∧ (t.filters = [] → t.sortColumn = none → getProcessedRows t = t.rows) := by
  constructor
  · unfold visibleRows at hs ⊢
    unfold resolveIndex
    by_cases hp : t.showPagination
    · simp only [hp, if_true] at hs ⊢
      have hlen : t.selectedRow < t.pageSize := by
        have := hs
        rw [List.length_take] at this
        omega
      rw [List.get?_eq_getElem?, List.get?_eq_getElem?]
      rw [List.getElem?_take_of_lt hlen, List.getElem?_drop]
      rw [Nat.add_comm]
    · simp [hp]
  · intro h1 h2
    unfold getProcessedRows
    rw [h1, h2, applyFilters, applySort]

/-- Witness for `table_return_resolves_processed_index` on the paginated
25-row table. -/
theorem table_return_resolves_processed_index_witness :
    T25.selectedRow < (visibleRows T25).length
    ∧ (getProcessedRows T25).get? (resolveIndex T25)
        = (visibleRows T25).get? T25.selectedRow :=
  ⟨by decide, (table_return_resolves_processed_index T25 (by decide)).1⟩

/-- The multiselect heap step never changes the engine's address list. -/
theorem msHeapStep_addrs (h : Heap) (st : MSHeapState) (k : MSKey) :
    ((msHeapStep h st k).2).addrs = st.addrs := by
  cases k with
  | space => rw [msHeapStep]; split <;> rfl
  | up => rfl
  | down => rfl
  | ret => rfl
  | escape => rfl

/-- The multiselect heap step leaves every cell below all engine
addresses untouched. -/
theorem msHeapStep_frame (h : Heap) (st : MSHeapState) (k : MSKey) (a : Nat)
    (hlow : ∀ b ∈ st.addrs, a < b) :
    ((msHeapStep h st k).1).get? a = h.get? a := by
  cases k with
  | space =>
      rw [msHeapStep]
      cases hg : st.addrs.get? st.selectedIndex.toNat with
      | none => rfl
      | some b =>
          have hab : b ≠ a := by
            have := hlow b (List.get?_mem hg)
            omega
          simp only []
          rw [List.get?_eq_getElem?, List.get?_eq_getElem?, List.getElem?_modify]
          cases h[a]? <;> simp [hab]
  | up => rfl
  | down => rfl
  | ret => rfl
  | escape => rfl

/-- C10 (confirmed): `multiselect` copies each configured choice before
its event loop and only ever toggles `checked` on those fresh copies, so
after any finite keypress sequence every pre-existing heap cell — in
particular each of the caller's choice objects, pre-set `checked` fields
included — is exactly what it was before the prompt ran. The caller's
address list itself is never threaded through the engine at all. -/
theorem multiselect_frame (h : Heap) (callerAddrs : List Nat) (ks : List MSKey)
    (a : Nat) (ha : a < h.length) :
    (msHeapRun h callerAddrs ks).1.get? a = h.get? a := by
  have haddr : ∀ b ∈ List.range' h.length callerAddrs.length, a < b := by
    intro b hb
    rw [List.mem_range'_1] at hb
    omega
  have key : ∀ (ks : List MSKey) (h' : Heap) (st : MSHeapState),
      st.addrs = List.range' h.length callerAddrs.length →
      h'.get? a = h.get? a →
      (ks.foldl (fun q k => msHeapStep q.1 q.2 k) (h', st)).1.get? a = h.get? a := by
    intro ks
    induction ks with
    | nil => intro h' st _ h2; exact h2
    | cons k ks ih =>
        intro h' st h1 h2
        rw [List.foldl_cons]
        exact ih (msHeapStep h' st k).1 (msHeapStep h' st k).2
          (by rw [msHeapStep_addrs, h1])
          (by rw [msHeapStep_frame h' st k a (by rw [h1]; exact haddr)]; exact h2)
  unfold msHeapRun msAlloc
  apply key
  · rfl
  · rw [List.get?_eq_getElem?, List.get?_eq_getElem?, List.getElem?_append_left ha]

/-- Witness for `multiselect_frame`: one pre-checked caller choice, a
`space` toggle and a `return`; the caller's object keeps `checked: true`. -/
theorem multiselect_frame_witness :
    (0 : Nat) < ([⟨"A", .undef, .bool true⟩] : Heap).length
    ∧ (msHeapRun [⟨"A", .undef, .bool true⟩] [0] [MSKey.space, MSKey.ret]).1.get? 0
        = ([⟨"A", .undef, .bool true⟩] : Heap).get? 0 :=
  ⟨by decide, multiselect_frame [⟨"A", .undef, .bool true⟩] [0] [MSKey.space, MSKey.ret] 0 (by decide)⟩

/-! Infrastructure for the sorting claim: the comparator sort transfers to
the keyed ordering `pairLE`, which is globally transitive and total. -/

/-- Evaluation of the comparator body on two present cells. -/
theorem cmpCells_some (x y : Int) :
    cmpCells (some x) (some y) = if x < y then -1 else if x > y then 1 else 0 := rfl

/-- On rows whose sort cells are present, the comparator ordering agrees
with the keyed ordering. -/
theorem rowLE_some (col : String) (dir : SortDir) (a b : Row) (x y : Int)
    (hax : cell a col = some x) (hby : cell b col = some y) :
    rowLE col dir a b = pairLE dir (a, x) (b, y) := by
  cases dir
  · show decide (cmpCells (cell a col) (cell b col) ≤ 0) = decide (x ≤ y)
    rw [hax, hby, cmpCells_some, decide_eq_decide]
    split_ifs <;> omega
  · show decide (-(cmpCells (cell a col) (cell b col)) ≤ 0) = decide (y ≤ x)
    rw [hax, hby, cmpCells_some, decide_eq_decide]
    split_ifs <;> omega

/-- `pairLE` is transitive (in the form `sorted_mergeSort` expects). -/
theorem pairLE_trans (dir : SortDir) (a b c : Row × Int) :
    pairLE dir a b → pairLE dir b c → pairLE dir a c := by
  intro hab hbc
  cases dir <;> simp only [pairLE, decide_eq_true_eq] at * <;> omega

/-- `pairLE` is total (in the form `sorted_mergeSort` expects). -/
theorem pairLE_total (dir : SortDir) (a b : Row × Int) :
    pairLE dir a b || pairLE dir b a := by
  cases dir <;> simp only [pairLE, Bool.or_eq_true, decide_eq_true_eq] <;> omega

/-- Stripping the key annotations recovers the row list. -/
theorem toKeyed_fst (col : String) (l : List Row) :
    (toKeyed col l).map Prod.fst = l := by
  simp [toKeyed, Function.comp_def]

/-- When every row has the sort column, each keyed pair carries exactly
its row's cell value. -/
theorem toKeyed_cell (col : String) (l : List Row)
    (hgood : ∀ r ∈ l, (cell r col).isSome) :
    ∀ p ∈ toKeyed col l, cell p.1 col = some p.2 := by
  intro p hp
  rw [toKeyed, List.mem_map] at hp
  obtain ⟨r, hr, rfl⟩ := hp
  obtain ⟨x, hx⟩ := Option.isSome_iff_exists.mp (hgood r hr)
  simp [hx]

/-- The comparator sort of a good row list is the projection of the keyed
sort. -/
theorem mergeSort_keyed (col : String) (dir : SortDir) (l : List Row)
    (hgood : ∀ r ∈ l, (cell r col).isSome) :
    l.mergeSort (rowLE col dir) = ((toKeyed col l).mergeSort (pairLE dir)).map Prod.fst := by
  have hcell := toKeyed_cell col l hgood
  have hl : ∀ a ∈ toKeyed col l, ∀ b ∈ toKeyed col l,
      pairLE dir a b = rowLE col dir a.1 b.1 := by
    intro a ha b hb
    rw [rowLE_some col dir a.1 b.1 a.2 b.2 (hcell a ha) (hcell b hb)]
  rw [List.map_mergeSort hl, toKeyed_fst]

/-- Sorting a good row list twice with the same comparator is the same as
sorting it once. -/
theorem mergeSort_rowLE_idem (col : String) (dir : SortDir) (l : List Row)
    (hgood : ∀ r ∈ l, (cell r col).isSome) :
    (l.mergeSort (rowLE col dir)).mergeSort (rowLE col dir) = l.mergeSort (rowLE col dir) := by
  have hcell := toKeyed_cell col l hgood
  have h1 : l.mergeSort (rowLE col dir)
      = ((toKeyed col l).mergeSort (pairLE dir)).map Prod.fst :=
    mergeSort_keyed col dir l hgood
  have hcellS : ∀ p ∈ (toKeyed col l).mergeSort (pairLE dir), cell p.1 col = some p.2 :=
    fun p hp => hcell p (List.mem_mergeSort.mp hp)
  have hl : ∀ a ∈ (toKeyed col l).mergeSort (pairLE dir),
      ∀ b ∈ (toKeyed col l).mergeSort (pairLE dir),
      pairLE dir a b = rowLE col dir a.1 b.1 := by
    intro a ha b hb
    rw [rowLE_some col dir a.1 b.1 a.2 b.2 (hcellS a ha) (hcellS b hb)]
  have hsorted : ((toKeyed col l).mergeSort (pairLE dir)).Pairwise (fun a b => pairLE dir a b) :=
    List.sorted_mergeSort (fun a b c => pairLE_trans dir a b c)
      (fun a b => pairLE_total dir a b) (toKeyed col l)
  calc (l.mergeSort (rowLE col dir)).mergeSort (rowLE col dir)
      = (((toKeyed col l).mergeSort (pairLE dir)).map Prod.fst).mergeSort (rowLE col dir) := by
        rw [h1]
    _ = (((toKeyed col l).mergeSort (pairLE dir)).mergeSort (pairLE dir)).map Prod.fst :=
        (List.map_mergeSort hl).symm
    _ = ((toKeyed col l).mergeSort (pairLE dir)).map Prod.fst := by
        rw [List.mergeSort_of_sorted hsorted]
    _ = l.mergeSort (rowLE col dir) := h1.symm

/-- Two permuted lists that are sorted by the same relation, antisymmetric
on their members, are equal. -/
theorem perm_pairwise_eq {α : Type} {r : α → α → Prop} :
    ∀ {l₁ l₂ : List α}, List.Perm l₁ l₂ → l₁.Pairwise r → l₂.Pairwise r →
      (∀ a ∈ l₁, ∀ b ∈ l₁, r a b → r b a → a = b) → l₁ = l₂ := by
  intro l₁
  induction l₁ with
  | nil =>
      intro l₂ p _ _ _
      exact p.nil_eq
  | cons a t ih =>
      intro l₂ p h₁ h₂ anti
      have ha₂ : a ∈ l₂ := p.mem_iff.mp (List.mem_cons_self a t)
      cases l₂ with
      | nil => exact absurd ha₂ (List.not_mem_nil a)
      | cons b t₂ =>
          have hab : a = b := by
            rcases List.mem_cons.mp ha₂ with h | h
            · exact h
            · have hba : r b a := (List.pairwise_cons.mp h₂).1 a h
              have hb₁ : b ∈ a :: t := p.symm.mem_iff.mp (List.mem_cons_self b t₂)
              rcases List.mem_cons.mp hb₁ with h' | h'
              · exact h'.symm
              · have hab' : r a b := (List.pairwise_cons.mp h₁).1 b h'
                exact anti a (List.mem_cons_self a t) b (List.mem_cons_of_mem a h') hab' hba
          subst hab
          have p' : List.Perm t t₂ := p.cons_inv
          have ht := ih p' (List.pairwise_cons.mp h₁).2 (List.pairwise_cons.mp h₂).2
            (fun x hx y hy hxy hyx =>
              anti x (List.mem_cons_of_mem a hx) y (List.mem_cons_of_mem a hy) hxy hyx)
          rw [ht]

/-- With no ties in the sort column, sorting descending is exactly the
reverse of sorting ascending. -/
theorem mergeSort_rowLE_reverse (col : String) (l : List Row)
    (hgood : ∀ r ∈ l, (cell r col).isSome)
    (hnoties : l.Pairwise (fun a b => cell a col ≠ cell b col)) :
    l.mergeSort (rowLE col .desc) = (l.mergeSort (rowLE col .asc)).reverse := by
  have hcell := toKeyed_cell col l hgood
  have hdistinct : ∀ a ∈ l, ∀ b ∈ l, cell a col = cell b col → a = b := by
    intro a ha b hb hcc
    by_contra hne
    have hsymm : ∀ {x y : Row}, cell x col ≠ cell y col → cell y col ≠ cell x col :=
      fun h => fun e => h e.symm
    have := List.Pairwise.forall (fun _ _ h => hsymm h) hnoties ha hb hne
    exact this hcc
  have hinj : ∀ a ∈ toKeyed col l, ∀ b ∈ toKeyed col l, a.2 = b.2 → a = b := by
    intro a ha b hb hk
    have hc1 : cell a.1 col = some a.2 := hcell a ha
    have hc2 : cell b.1 col = some b.2 := hcell b hb
    have ha1 : a.1 ∈ l := by
      rw [toKeyed, List.mem_map] at ha
      obtain ⟨r, hr, rfl⟩ := ha
      exact hr
    have hb1 : b.1 ∈ l := by
      rw [toKeyed, List.mem_map] at hb
      obtain ⟨r, hr, rfl⟩ := hb
      exact hr
    have hrows : a.1 = b.1 := by
      apply hdistinct a.1 ha1 b.1 hb1
      rw [hc1, hc2, hk]
    obtain ⟨a1, a2⟩ := a
    obtain ⟨b1, b2⟩ := b
    simp only [] at hrows hk
    rw [hrows, hk]
  have hperm : List.Perm ((toKeyed col l).mergeSort (pairLE .desc))
      (((toKeyed col l).mergeSort (pairLE .asc)).reverse) :=
    ((List.mergeSort_perm (toKeyed col l) _).trans
      (List.mergeSort_perm (toKeyed col l) _).symm).trans
      (List.reverse_perm _).symm
  have hD : ((toKeyed col l).mergeSort (pairLE .desc)).Pairwise (fun a b => pairLE .desc a b) :=
    List.sorted_mergeSort (fun a b c => pairLE_trans .desc a b c)
      (fun a b => pairLE_total .desc a b) (toKeyed col l)
  have hA : ((toKeyed col l).mergeSort (pairLE .asc)).Pairwise (fun a b => pairLE .asc a b) :=
    List.sorted_mergeSort (fun a b c => pairLE_trans .asc a b c)
      (fun a b => pairLE_total .asc a b) (toKeyed col l)
  have hArev : (((toKeyed col l).mergeSort (pairLE .asc)).reverse).Pairwise
      (fun a b => pairLE .desc a b) := by
    rw [List.pairwise_reverse]
    exact hA
  have hanti : ∀ a ∈ (toKeyed col l).mergeSort (pairLE .desc),
      ∀ b ∈ (toKeyed col l).mergeSort (pairLE .desc),
      pairLE .desc a b → pairLE .desc b a → a = b := by
    intro a ha b hb h1 h2
    apply hinj a (List.mem_mergeSort.mp ha) b (List.mem_mergeSort.mp hb)
    simp only [pairLE, decide_eq_true_eq] at h1 h2
    omega
  have hDA : (toKeyed col l).mergeSort (pairLE .desc)
      = ((toKeyed col l).mergeSort (pairLE .asc)).reverse :=
    perm_pairwise_eq hperm hD hArev hanti
  rw [mergeSort_keyed col .desc l hgood, mergeSort_keyed col .asc l hgood, hDA,
    List.map_reverse]

/-- Stability: the sort keeps rows with any fixed sort-cell value in
their original relative order (their subsequence is unchanged). -/
theorem mergeSort_rowLE_stable (col : String) (dir : SortDir) (l : List Row)
    (hgood : ∀ r ∈ l, (cell r col).isSome) (v : Option Int) :
    (l.mergeSort (rowLE col dir)).filter (fun r => cell r col == v)
      = l.filter (fun r => cell r col == v) := by
  have hcell := toKeyed_cell col l hgood
  have hsubl : List.Sublist
      ((toKeyed col l).filter ((fun r => cell r col == v) ∘ Prod.fst))
      ((toKeyed col l).mergeSort (pairLE dir)) := by
    apply List.sublist_mergeSort (fun a b c => pairLE_trans dir a b c)
      (fun a b => pairLE_total dir a b)
    · apply List.pairwise_of_forall_mem_list
      intro a ha b hb
      have ha' := List.mem_filter.mp ha
      have hb' := List.mem_filter.mp hb
      have h1 : cell a.1 col = some a.2 := hcell a ha'.1
      have h2 : cell b.1 col = some b.2 := hcell b hb'.1
      have e1 : cell a.1 col = v := by
        have := ha'.2
        simpa [Function.comp, beq_iff_eq] using this
      have e2 : cell b.1 col = v := by
        have := hb'.2
        simpa [Function.comp, beq_iff_eq] using this
      have hk : a.2 = b.2 := by
        rw [e1] at h1
        rw [e2] at h2
        rw [h1] at h2
        exact Option.some_injective _ h2
      cases dir <;> simp only [pairLE, decide_eq_true_eq] <;> omega
    · exact List.filter_sublist (toKeyed col l)
  have hperm : List.Perm
      (((toKeyed col l).mergeSort (pairLE dir)).filter ((fun r => cell r col == v) ∘ Prod.fst))
      ((toKeyed col l).filter ((fun r => cell r col == v) ∘ Prod.fst)) :=
    (List.mergeSort_perm (toKeyed col l) (pairLE dir)).filter _
  have heq : (toKeyed col l).filter ((fun r => cell r col == v) ∘ Prod.fst)
      = ((toKeyed col l).mergeSort (pairLE dir)).filter ((fun r => cell r col == v) ∘ Prod.fst) := by
    have h1 : ((toKeyed col l).filter ((fun r => cell r col == v) ∘ Prod.fst)).filter
        ((fun r => cell r col == v) ∘ Prod.fst)
        = (toKeyed col l).filter ((fun r => cell r col == v) ∘ Prod.fst) := by
      rw [List.filter_eq_self]
      intro a ha
      exact (List.mem_filter.mp ha).2
    have h2 := hsubl.filter ((fun r => cell r col == v) ∘ Prod.fst)
    rw [h1] at h2
    exact h2.eq_of_length hperm.symm.length_eq
  rw [mergeSort_keyed col dir l hgood]
  rw [List.filter_map, heq.symm, ← List.filter_map, toKeyed_fst]

/-- Membership in a filtered row list implies membership in the original. -/
theorem mem_applyFilters (fs : List (String × String)) (l : List Row) (r : Row)
    (h : r ∈ applyFilters fs l) : r ∈ l := by
  induction fs generalizing l with
  | nil => exact h
  | cons f rest ih =>
      obtain ⟨c, v⟩ := f
      rw [applyFilters] at h
      have h2 := ih _ h
      by_cases hv : v = ""
      · rwa [if_pos hv] at h2
      · rw [if_neg hv] at h2
        exact (List.mem_filter.mp h2).1

/-- `applyFilters` is the identity on every list whose elements already
passed the filters (stated via a permutation of a filtered list). -/
theorem applyFilters_of_perm (fs : List (String × String)) (l l' : List Row)
    (hperm : List.Perm l' (applyFilters fs l)) : applyFilters fs l' = l' := by
  induction fs generalizing l l' with
  | nil => rfl
  | cons f rest ih =>
      obtain ⟨c, v⟩ := f
      rw [applyFilters] at hperm ⊢
      by_cases hv : v = ""
      · rw [if_pos hv] at hperm ⊢
        exact ih _ _ hperm
      · rw [if_neg hv] at hperm ⊢
        have hl' : l'.filter (filterPred c v) = l' := by
          rw [List.filter_eq_self]
          intro r hr
          have h1 : r ∈ applyFilters rest (l.filter (filterPred c v)) :=
            hperm.mem_iff.mp hr
          have h2 := mem_applyFilters rest _ r h1
          exact (List.mem_filter.mp h2).2
        rw [hl']
        exact ih _ _ hperm

/-- C6 (confirmed, for tables whose rows all carry the sort column — the
spec's data model makes column names keys into the row records): with
`sort(col, direction)` applied, (1) re-processing the processed rows
yields the same row order (sorting is idempotent through
`getProcessedRows`); (2) with no ties in the sort column, the descending
order is the exact reverse of the ascending order; and (3) rows tied on
any sort-cell value keep their original relative order under either
direction (the stable sort with the sign-negated comparator). -/
theorem table_sort_properties (t : Table) (col : String)
    (hc : t.sortColumn = some col) (hne : col ≠ "")
    (hgood : ∀ r ∈ t.rows, (cell r col).isSome) :
    (getProcessedRows { t with rows := getProcessedRows t } = getProcessedRows t)
    ∧ ((applyFilters t.filters t.rows).Pairwise (fun a b => cell a col ≠ cell b col) →
        getProcessedRows { t with sortDirection := .desc }
          = (getProcessedRows { t with sortDirection := .asc }).reverse)
    ∧ (∀ v : Option Int,
        (getProcessedRows t).filter (fun r => cell r col == v)
          = (applyFilters t.filters t.rows).filter (fun r => cell r col == v)) := by
  have hgoodF : ∀ r ∈ applyFilters t.filters t.rows, (cell r col).isSome :=
    fun r hr => hgood r (mem_applyFilters _ _ r hr)
  have hsort : ∀ (d : SortDir) (rs : List Row),
      applySort (some col) d rs = rs.mergeSort (rowLE col d) := by
    intro d rs
    rw [applySort, if_neg hne]
  refine ⟨?_, ?_, ?_⟩
  · show applySort t.sortColumn t.sortDirection
        (applyFilters t.filters (applySort t.sortColumn t.sortDirection (applyFilters t.filters t.rows)))
      = applySort t.sortColumn t.sortDirection (applyFilters t.filters t.rows)
    rw [hc]
    simp only [hsort]
    have hXperm : List.Perm
        ((applyFilters t.filters t.rows).mergeSort (rowLE col t.sortDirection))
        (applyFilters t.filters t.rows) := List.mergeSort_perm _ _
    rw [applyFilters_of_perm t.filters t.rows _ hXperm]
    exact mergeSort_rowLE_idem col t.sortDirection _ hgoodF
  · intro hnt
    show applySort t.sortColumn .desc (applyFilters t.filters t.rows)
        = (applySort t.sortColumn .asc (applyFilters t.filters t.rows)).reverse
    rw [hc]
    simp only [hsort]
    exact mergeSort_rowLE_reverse col _ hgoodF hnt
  · intro v
    show (applySort t.sortColumn t.sortDirection (applyFilters t.filters t.rows)).filter
          (fun r => cell r col == v)
        = (applyFilters t.filters t.rows).filter (fun r => cell r col == v)
    rw [hc]
    simp only [hsort]
    exact mergeSort_rowLE_stable col t.sortDirection _ hgoodF v

/-- Witness for `table_sort_properties` on the concrete tied table `TS`. -/
theorem table_sort_properties_witness :
    (TS.sortColumn = some "x" ∧ ("x" : String) ≠ ""
      ∧ (∀ r ∈ TS.rows, (cell r "x").isSome))
    ∧ getProcessedRows { TS with rows := getProcessedRows TS } = getProcessedRows TS :=
  ⟨⟨rfl, by decide, by decide⟩,
   (table_sort_properties TS "x" rfl (by decide) (by decide)).1⟩

end TQ
